import Mathlib

/-!
Shallow embedding of the multi-valued-cell parsing and frequency-aggregation
engine of the CNJSaude repository (source files
`gerar_relatorio_analise_cnj.py`, `analise_output.py`,
`analise_output_sus.py`, `relatorio_export.py`).

Python strings are modelled as `List Char` (a `str` is a sequence of
characters), cells as `Option (List Char)` (`NaN` versus a string), and
tabular rows as association lists from column names to cells.  Python `set`s
of keywords are modelled as lists: the only operation performed on them is an
order-insensitive "does any member match" scan.
-/

namespace CNJSaude

/-- The whitespace characters removed by Python `str.strip` (the ASCII ones;
the repository's separators and padding are plain spaces). -/
def espaco (c : Char) : Bool :=
  c == ' ' || c == '\t' || c == '\n' || c == '\r' || c == '\x0b' || c == '\x0c'

/-- Python `str.strip`: drop whitespace from both ends of the character list. -/
def pyStrip (l : List Char) : List Char :=
  ((l.dropWhile espaco).reverse.dropWhile espaco).reverse

/-- Python `str.upper` on the ASCII letters (all keyword matching in the
sources is over ASCII keyword constants). -/
def pyUpper (l : List Char) : List Char := l.map Char.toUpper

/-- Split a character list at every comma.  The Python sources split with
`re.split(r'\s*,\s*', texto)` and then strip every piece and drop pieces that
become empty; commas are the only mandatory characters of that pattern, so
splitting at the bare commas yields the same final tokens once the very same
strip-and-drop postprocessing is applied. -/
def splitComma : List Char → List (List Char)
  | [] => [[]]
  | c :: resto =>
    if c = ',' then [] :: splitComma resto
    else
      match splitComma resto with
      | [] => [[c]]
      | p :: ps => (c :: p) :: ps

/-- A decoded token of a multi-valued cell. -/
abbrev Token : Type := List Char

/-- A raw tabular cell: missing (`NaN`) or a string. -/
abbrev Cell : Type := Option (List Char)

/-- `parse_multi_valor` (`gerar_relatorio_analise_cnj.py` lines 80-87; the
copies in `analise_output.py` and `analise_output_sus.py` are identical):
decode a possibly missing, possibly brace-wrapped, comma-separated cell into
its list of trimmed non-empty tokens. -/
def parse_multi_valor (valor_celula : Cell) : List Token :=
  match valor_celula with
  | none => []
  | some v =>
    let texto_str := pyStrip v
    if texto_str = [] then []
    else
      let texto_interno :=
        if texto_str.head? = some '\x7b' ∧ texto_str.getLast? = some '\x7d' then
          (texto_str.drop 1).dropLast
        else texto_str
      ((splitComma texto_interno).map pyStrip).filter (fun t => !t.isEmpty)

/-- Bool test that the first list is an initial segment of the second. -/
def comecaCom : List Char → List Char → Bool
  | [], _ => true
  | _ :: _, [] => false
  | a :: ra, b :: rb => a == b && comecaCom ra rb

/-- Python's contiguous-substring test `agulha in palheiro`. -/
def contemSub (agulha : List Char) : List Char → Bool
  | [] => agulha.isEmpty
  | c :: resto => comecaCom agulha (c :: resto) || contemSub agulha resto

/-- `eh_ente_publico` (`gerar_relatorio_analise_cnj.py` lines 89-97, identical
in `analise_output_sus.py`): does any decoded token of the cell, uppercased,
contain some keyword as a substring? -/
def eh_ente_publico (texto_natjur : Cell) (palavras_chave : List Token) : Bool :=
  match texto_natjur with
  | none => false
  | some _ =>
    let lista_naturezas := parse_multi_valor texto_natjur
    if lista_naturezas.isEmpty then false
    else
      lista_naturezas.any (fun natureza =>
        palavras_chave.any (fun chave => contemSub chave (pyUpper natureza)))

/-- The confidentiality sentinel compared against stripped uppercased tokens. -/
def SENTINELA_SIGILOSO : Token := "SIGILOSO".toList

/-- Per-field accumulator state: the `Counter` of token occurrences (an
insertion-ordered association list, like a Python dict) plus the separate
count of confidential tokens. -/
structure FieldState where
  contagens : List (Token × Nat)
  contagem_sigiloso : Nat
deriving DecidableEq

def estadoInicial : FieldState := ⟨[], 0⟩

/-- `Counter` increment (`contadores[coluna][item] += 1`): bump the first
binding of the key, or append a fresh binding at the end, preserving
insertion order exactly as a Python dict does. -/
def incr : List (Token × Nat) → Token → List (Token × Nat)
  | [], t => [(t, 1)]
  | (k, v) :: resto, t =>
    if k = t then (k, v + 1) :: resto else (k, v) :: incr resto t

/-- Read a key's count out of the accumulated `Counter` (0 when absent). -/
def lookupCount : List (Token × Nat) → Token → Nat
  | [], _ => 0
  | (k, v) :: resto, t => if k = t then v else lookupCount resto t

/-- The per-token body of the accumulation loop
(`gerar_relatorio_analise_cnj.py` lines 141-143, identical in
`analise_output_sus.py` lines 104-106): strip and uppercase the token; the
sentinel bumps the confidential counter, any other token whose stripped
uppercase form is non-empty is counted under its original casing. -/
def observe_token (st : FieldState) (item : Token) : FieldState :=
  let item_strip_upper := pyUpper (pyStrip item)
  if item_strip_upper = SENTINELA_SIGILOSO then
    ⟨st.contagens, st.contagem_sigiloso + 1⟩
  else if item_strip_upper ≠ [] then
    ⟨incr st.contagens item, st.contagem_sigiloso⟩
  else st

/-- Feed one cell to a field's accumulator: tokenize it and observe each
token in order.  A missing cell (`dropna`) contributes no tokens, which is
also what `parse_multi_valor` returns for it. -/
def observe_cell (st : FieldState) (c : Cell) : FieldState :=
  (parse_multi_valor c).foldl observe_token st

/-- Feed a sequence of cells (one column of a batch) to the accumulator. -/
def observe_cells (st : FieldState) (cs : List Cell) : FieldState :=
  cs.foldl observe_cell st

/-- `sum(contador.values())`. -/
def sumCounts (m : List (Token × Nat)) : Nat := (m.map (fun p => p.2)).sum

/-- `pd.Series(contador).sort_values(ascending=False)`: sort descending by
count.  pandas does not pin the order of ties; the stable insertion sort used
here keeps ties in `Counter` insertion order, one admissible behaviour. -/
def ordenarDesc (m : List (Token × Nat)) : List (Token × Nat) :=
  List.insertionSort (fun a b => b.2 ≤ a.2) m

/-- The per-column slice of the scan's return value: the dictionary
`{'contagens': ..., 'total_ocorrencias': ..., 'contagem_sigiloso': ...}`. -/
structure Resultado where
  contagens : List (Token × Nat)
  total_ocorrencias : Nat
  contagem_sigiloso : Nat
deriving DecidableEq

def resultadoVazio : Resultado := ⟨[], 0, 0⟩

/-- The per-column finalisation of `analisar_frequencias`
(`gerar_relatorio_analise_cnj.py` lines 150-153, identical in
`analise_output_sus.py` lines 112-115): the grand total is the sum of the
counted occurrences plus the confidential ones; a column with no
occurrences at all yields the explicit empty result. -/
def finalize (st : FieldState) : Resultado :=
  let total := sumCounts st.contagens + st.contagem_sigiloso
  if total = 0 then resultadoVazio
  else ⟨ordenarDesc st.contagens, total, st.contagem_sigiloso⟩

/-- A row of the tabular source: column name to cell.  A column missing from
the association list reads as a missing cell. -/
abbrev Row : Type := List (String × Cell)

def getCell (r : Row) (c : String) : Cell := (List.lookup c r).getD none

/-- A tabular source: the declared header and the data rows, in order. -/
structure Fonte where
  header : List String
  rows : List Row

/-- Partition a list into consecutive batches of `k` elements (the pandas
`chunksize=k` iteration); the `fuel` argument makes the recursion structural
and is always instantiated with the list length, which suffices for every
positive `k`. -/
def chunksAux {α : Type} (k : Nat) : Nat → List α → List (List α)
  | _, [] => []
  | 0, l => [l]
  | fuel + 1, l => l.take k :: chunksAux k fuel (l.drop k)

def chunks {α : Type} (k : Nat) (l : List α) : List (List α) :=
  chunksAux k l.length l

/-- One batch of the accumulation loop of `analisar_frequencias`
(`gerar_relatorio_analise_cnj.py` lines 126-144): apply the public-entity
mask to the batch when filtering is active, then feed every existing analysed
column's cells of the surviving rows to that column's accumulator.  The scan
state maps each column name to its accumulator; only the columns in
`existentes` are ever touched, exactly as in the source loop. -/
def processarChunk (ativo : Option (String × List Token)) (existentes : List String)
    (st : String → FieldState) (chunk : List Row) : String → FieldState :=
  let chunk_processar :=
    match ativo with
    | some (cf, chaves) => chunk.filter (fun r => eh_ente_publico (getCell r cf) chaves)
    | none => chunk
  fun col =>
    if existentes.contains col then
      observe_cells (st col) (chunk_processar.map (fun r => getCell r col))
    else st col

/-- `analisar_frequencias` (`gerar_relatorio_analise_cnj.py` lines 101-155).
`k` is the `CHUNKSIZE_ANALISE` batch size.  The optional-filter mode is the
pair `filtro = some (coluna_filtro_ente, palavras_chave_entes)`; every call
site of the Python function passes a filter column whenever it requests
filtering, so the embedding bundles the two.  A requested filter column that
is absent from the header deactivates filtering (line 118); if no analysed
column is present the scan returns `none` (line 117); absent analysed columns
receive the explicit empty result (line 149). -/
def analisar_frequencias (k : Nat) (fonte : Fonte) (colunas_analise : List String)
    (filtro : Option (String × List Token)) : Option (List (String × Resultado)) :=
  let existentes := colunas_analise.filter (fun c => fonte.header.contains c)
  if existentes.isEmpty then none
  else
    let ativo :=
      match filtro with
      | some (cf, chaves) =>
        if fonte.header.contains cf then some (cf, chaves) else none
      | none => none
    let final := (chunks k fonte.rows).foldl (processarChunk ativo existentes)
      (fun _ => estadoInicial)
    some (colunas_analise.map (fun col =>
      (col, if existentes.contains col then finalize (final col) else resultadoVazio)))

/-- Single-pass reference version of `analisar_frequencias`: the same scan
with the whole row list treated as one batch.  Used as the batch-size
independent specification the chunked scan is proved to match. -/
def analisar_frequencias_spec (fonte : Fonte) (colunas_analise : List String)
    (filtro : Option (String × List Token)) : Option (List (String × Resultado)) :=
  let existentes := colunas_analise.filter (fun c => fonte.header.contains c)
  if existentes.isEmpty then none
  else
    let ativo :=
      match filtro with
      | some (cf, chaves) =>
        if fonte.header.contains cf then some (cf, chaves) else none
      | none => none
    let rows_processar :=
      match ativo with
      | some (cf, chaves) =>
        fonte.rows.filter (fun r => eh_ente_publico (getCell r cf) chaves)
      | none => fonte.rows
    some (colunas_analise.map (fun col =>
      (col, if existentes.contains col then
              finalize (observe_cells estadoInicial (rows_processar.map (fun r => getCell r col)))
            else resultadoVazio)))

/-- The per-column slice of `analise_output.py`'s scan result: that script
keeps no separate confidential bucket, only `contagens` and
`total_ocorrencias`. -/
structure ResultadoAO where
  contagens : List (Token × Nat)
  total_ocorrencias : Nat
deriving DecidableEq

/-- The per-cell accumulation of `analise_output.py` (lines 120-127):
`explode` the parsed tokens and `Counter.update` them — every token,
including the sentinel, is counted under its original casing. -/
def observeCellAO (m : List (Token × Nat)) (c : Cell) : List (Token × Nat) :=
  (parse_multi_valor c).foldl incr m

def observeCellsAO (m : List (Token × Nat)) (cs : List Cell) : List (Token × Nat) :=
  cs.foldl observeCellAO m

/-- Per-column finalisation of `analise_output.py` (lines 136-151): an empty
counter yields the explicit empty result, otherwise the sorted counts and
their sum. -/
def finalizeAO (m : List (Token × Nat)) : ResultadoAO :=
  if m = [] then ⟨[], 0⟩ else ⟨ordenarDesc m, sumCounts m⟩

/-- One batch of `analise_output.py`'s accumulation loop (lines 117-130):
no filter, every existing analysed column of the batch is accumulated. -/
def processarChunkAO (existentes : List String)
    (st : String → List (Token × Nat)) (chunk : List Row) : String → List (Token × Nat) :=
  fun col =>
    if existentes.contains col then
      observeCellsAO (st col) (chunk.map (fun r => getCell r col))
    else st col

/-- `analisar_frequencias` of `analise_output.py` (lines 65-157).  Note that
the finalisation loop of that script (line 136) iterates over
`colunas_analise_existentes` only: analysed columns absent from the header
produce no entry at all in the returned dictionary. -/
def analisar_frequencias_ao (k : Nat) (fonte : Fonte) (colunas_analise : List String) :
    Option (List (String × ResultadoAO)) :=
  let existentes := colunas_analise.filter (fun c => fonte.header.contains c)
  if existentes.isEmpty then none
  else
    let final := (chunks k fonte.rows).foldl (processarChunkAO existentes) (fun _ => [])
    some (existentes.map (fun col => (col, finalizeAO (final col))))

/-- Single-pass reference version of `analise_output.py`'s scan. -/
def analisar_frequencias_ao_spec (fonte : Fonte) (colunas_analise : List String) :
    Option (List (String × ResultadoAO)) :=
  let existentes := colunas_analise.filter (fun c => fonte.header.contains c)
  if existentes.isEmpty then none
  else
    some (existentes.map (fun col =>
      (col, finalizeAO (observeCellsAO [] (fonte.rows.map (fun r => getCell r col))))))

/-- `analisar_frequencias_entes_publicos` (`analise_output_sus.py` lines
72-117).  Its guard (line 87) returns `None` when the essential columns are
missing: since `colunas_para_ler` always includes `coluna_natjur_passivo`,
that guard is exactly "the filter column is absent from the header" — an
empty existing-column list implies the filter column is absent too.  The
filter is always active; columns absent from the header receive the explicit
empty result (line 111). -/
def analisar_frequencias_entes_publicos (k : Nat) (fonte : Fonte)
    (colunas_analise : List String) (coluna_natjur_passivo : String)
    (palavras_chave : List Token) : Option (List (String × Resultado)) :=
  if ¬ fonte.header.contains coluna_natjur_passivo then none
  else
    let existentes := colunas_analise.filter (fun c => fonte.header.contains c)
    let final := (chunks k fonte.rows).foldl
      (processarChunk (some (coluna_natjur_passivo, palavras_chave)) existentes)
      (fun _ => estadoInicial)
    some (colunas_analise.map (fun col =>
      (col, if fonte.header.contains col then finalize (final col) else resultadoVazio)))

/-- Round a rational `a / b` (`b` positive) to the nearest integer, ties to
the even neighbour — the rounding `'{:.2f}'.format` applies to the printed
decimal.  The Python source formats an IEEE double; the embedding computes
the exact rational instead, which agrees except on inputs whose binary
approximation falls on the other side of a decimal half-way point. -/
def roundHalfEvenDiv (a b : Int) : Int :=
  let f := Int.fdiv a b
  let r := a - f * b
  if 2 * r < b then f
  else if b < 2 * r then f + 1
  else if f % 2 = 0 then f else f + 1

/-- Render a natural number below 100 with two digits. -/
def pad2 (n : Nat) : List Char :=
  if n < 10 then '0' :: Nat.toDigits 10 n else Nat.toDigits 10 n

/-- `'{:.2f}%'.format(c / total * 100)`: the percentage of `c` out of
`total`, with two decimal places and a percent sign. -/
def formatFixed2Pct (c : Int) (total : Nat) : List Char :=
  let n := roundHalfEvenDiv (c * 10000) (total : Int)
  let sinal : List Char := if n < 0 then ['-'] else []
  let m := n.natAbs
  sinal ++ Nat.toDigits 10 (m / 100) ++ '.' :: pad2 (m % 100) ++ ['%']

/-- One presentation-table row: `Item`, `Contagem`, `Percentual`. -/
abbrev Linha : Type := List Char × Int × List Char

def rotuloOutros (k : Nat) : List Char :=
  "Outros (".toList ++ Nat.toDigits 10 k ++ " itens)".toList

/-- `formatar_tabela_analise` (`relatorio_export.py` lines 20-94; the copy in
`gerar_relatorio_analise_cnj.py` lines 160-188 differs only in guarding the
total row with `not df_tabela.empty or contagem_sigiloso > 0`, equivalent
because a positive confidential count has already appended a row).  Top-N
rows, a conditional `Outros` rollup, a conditional `Sigiloso` row, and the
final `TOTAL GERAL` row; every percentage is taken against the grand total. -/
def formatar_tabela_analise (dados_contagem : Resultado) (top_n : Nat) :
    Option (List Linha) :=
  let contagens := dados_contagem.contagens
  let total_ocorrencias := dados_contagem.total_ocorrencias
  let contagem_sigiloso := dados_contagem.contagem_sigiloso
  if total_ocorrencias = 0 then none
  else
    let total_validas : Int := (total_ocorrencias : Int) - (contagem_sigiloso : Int)
    let total_itens_unicos_validos := contagens.length
    let top_n_contagens := contagens.take top_n
    let soma_top_n : Int := (sumCounts top_n_contagens : Int)
    let contagem_outros : Int := total_validas - soma_top_n
    let df1 : List Linha := top_n_contagens.map (fun p =>
      (p.1, (p.2 : Int), formatFixed2Pct (p.2 : Int) total_ocorrencias))
    let df2 : List Linha :=
      if total_itens_unicos_validos > top_n ∧ contagem_outros > 0 then
        df1 ++ [(rotuloOutros (total_itens_unicos_validos - top_n), contagem_outros,
                 formatFixed2Pct contagem_outros total_ocorrencias)]
      else df1
    let df3 : List Linha :=
      if contagem_sigiloso > 0 then
        df2 ++ [("Sigiloso".toList, (contagem_sigiloso : Int),
                 formatFixed2Pct (contagem_sigiloso : Int) total_ocorrencias)]
      else df2
    if df3 = [] then none
    else some (df3 ++ [("TOTAL GERAL".toList, (total_ocorrencias : Int), "100.00%".toList)])

/-- Python `', '.join(tokens)`: interleave the tokens with a comma and a
space. -/
def joinComma (ts : List Token) : List Char :=
  match ts with
  | [] => []
  | [t] => t
  | t :: resto => t ++ [',', ' '] ++ joinComma resto

/-! ### Helper lemmas about stripping, splitting and joining -/

theorem getLast?_append_right {a b : List Char} (hb : b ≠ []) :
    (a ++ b).getLast? = b.getLast? := by
  rw [List.getLast?_append]
  cases hx : b.getLast? with
  | none => exact absurd (List.getLast?_eq_none_iff.mp hx) hb
  | some x => rfl

theorem head?_append_left {a b : List Char} (ha : a ≠ []) :
    (a ++ b).head? = a.head? := by
  rw [List.head?_append]
  cases hx : a.head? with
  | none => exact absurd (List.head?_eq_none_iff.mp hx) ha
  | some x => rfl

theorem dropWhile_head?_nospace :
    ∀ (l : List Char) (c : Char), (l.dropWhile espaco).head? = some c → espaco c = false := by
  intro l
  induction l with
  | nil => intro c hc; simp at hc
  | cons a t ih =>
    intro c hc
    rw [List.dropWhile_cons] at hc
    by_cases ha : espaco a = true
    · exact ih c (by simpa [ha] using hc)
    · simp [ha] at hc
      rw [← hc]
      simpa using ha

theorem dropWhile_eq_self_of_head {l : List Char}
    (h : ∀ c, l.head? = some c → espaco c = false) :
    l.dropWhile espaco = l := by
  cases l with
  | nil => rfl
  | cons a t => rw [List.dropWhile_cons, h a rfl]; simp

theorem getLast?_dropWhile {m : List Char} (h : m.dropWhile espaco ≠ []) :
    (m.dropWhile espaco).getLast? = m.getLast? := by
  conv_rhs => rw [← List.takeWhile_append_dropWhile espaco m]
  rw [getLast?_append_right h]

theorem pyStrip_head?_nospace {l : List Char} {c : Char}
    (h : (pyStrip l).head? = some c) : espaco c = false := by
  unfold pyStrip at h
  rw [List.head?_reverse] at h
  have hne : (l.dropWhile espaco).reverse.dropWhile espaco ≠ [] := by
    intro hx; rw [hx] at h; simp at h
  rw [getLast?_dropWhile hne, List.getLast?_reverse] at h
  exact dropWhile_head?_nospace l c h

theorem pyStrip_getLast?_nospace {l : List Char} {c : Char}
    (h : (pyStrip l).getLast? = some c) : espaco c = false := by
  unfold pyStrip at h
  rw [List.getLast?_reverse] at h
  exact dropWhile_head?_nospace _ c h

theorem pyStrip_eq_self {l : List Char}
    (h1 : ∀ c, l.head? = some c → espaco c = false)
    (h2 : ∀ c, l.getLast? = some c → espaco c = false) :
    pyStrip l = l := by
  unfold pyStrip
  rw [dropWhile_eq_self_of_head h1]
  rw [dropWhile_eq_self_of_head (by intro c hc; rw [List.head?_reverse] at hc; exact h2 c hc)]
  exact List.reverse_reverse l

theorem pyStrip_idem (l : List Char) : pyStrip (pyStrip l) = pyStrip l := by
  by_cases h : pyStrip l = []
  · rw [h]; rfl
  · exact pyStrip_eq_self (fun c hc => pyStrip_head?_nospace hc)
      (fun c hc => pyStrip_getLast?_nospace hc)

theorem pyStrip_cons_space {c : Char} (hc : espaco c = true) (l : List Char) :
    pyStrip (c :: l) = pyStrip l := by
  unfold pyStrip
  rw [List.dropWhile_cons, if_pos hc]

theorem mem_pyStrip {a : Char} {l : List Char} (h : a ∈ pyStrip l) : a ∈ l := by
  unfold pyStrip at h
  rw [List.mem_reverse] at h
  have h1 : a ∈ (l.dropWhile espaco).reverse := by
    have := (List.takeWhile_append_dropWhile espaco (l.dropWhile espaco).reverse).symm
    rw [this, List.mem_append]; exact Or.inr h
  rw [List.mem_reverse] at h1
  have := (List.takeWhile_append_dropWhile espaco l).symm
  rw [this, List.mem_append]; exact Or.inr h1

theorem splitComma_ne_nil : ∀ l : List Char, splitComma l ≠ [] := by
  intro l
  cases l with
  | nil => simp [splitComma]
  | cons c t =>
    rw [splitComma]
    by_cases hc : c = ','
    · simp [hc]
    · rw [if_neg hc]
      cases splitComma t with
      | nil => simp
      | cons p ps => simp

theorem splitComma_no_comma : ∀ (l : List Char) (p : List Char), p ∈ splitComma l → ',' ∉ p := by
  intro l
  induction l with
  | nil => intro p hp; simp [splitComma] at hp; simp [hp]
  | cons c t ih =>
    intro p hp
    rw [splitComma] at hp
    by_cases hc : c = ','
    · rw [if_pos hc] at hp
      rcases List.mem_cons.mp hp with h1 | h1
      · simp [h1]
      · exact ih p h1
    · rw [if_neg hc] at hp
      cases hs : splitComma t with
      | nil => exact absurd hs (splitComma_ne_nil t)
      | cons q qs =>
        rw [hs] at hp
        rcases List.mem_cons.mp hp with h1 | h1
        · subst h1
          intro hmem
          rcases List.mem_cons.mp hmem with h2 | h2
          · exact hc h2.symm
          · exact ih q (hs ▸ List.mem_cons_self q qs) h2
        · exact ih p (hs ▸ List.mem_cons.mpr (Or.inr h1))

theorem splitComma_single {p : List Char} (hp : ',' ∉ p) : splitComma p = [p] := by
  induction p with
  | nil => rfl
  | cons c t ih =>
    have hc : c ≠ ',' := fun h => hp (h ▸ List.mem_cons_self c t)
    have ht : ',' ∉ t := fun h => hp (List.mem_cons.mpr (Or.inr h))
    rw [splitComma, if_neg hc, ih ht]

theorem splitComma_append {p : List Char} (hp : ',' ∉ p) (r : List Char) :
    splitComma (p ++ ',' :: r) = p :: splitComma r := by
  induction p with
  | nil => simp [splitComma]
  | cons c t ih =>
    have hc : c ≠ ',' := fun h => hp (h ▸ List.mem_cons_self c t)
    have ht : ',' ∉ t := fun h => hp (List.mem_cons.mpr (Or.inr h))
    rw [List.cons_append, splitComma, if_neg hc, ih ht]

theorem joinComma_cons_cons (t q : Token) (r : List Token) :
    joinComma (t :: q :: r) = t ++ [',', ' '] ++ joinComma (q :: r) := rfl

theorem joinComma_ne_nil {t : Token} (ht : t ≠ []) (resto : List Token) :
    joinComma (t :: resto) ≠ [] := by
  cases resto with
  | nil => simpa [joinComma] using ht
  | cons q r =>
    rw [joinComma_cons_cons]
    simp [ht]

theorem joinComma_head? {t : Token} (ht : t ≠ []) (resto : List Token) :
    (joinComma (t :: resto)).head? = t.head? := by
  cases resto with
  | nil => rfl
  | cons q r => rw [joinComma_cons_cons, List.append_assoc]; exact head?_append_left ht

theorem joinComma_getLast? :
    ∀ (resto : List Token) (t : Token), t ≠ [] → (∀ p ∈ resto, p ≠ []) →
      ∃ u ∈ t :: resto, (joinComma (t :: resto)).getLast? = u.getLast? := by
  intro resto
  induction resto with
  | nil => intro t ht _; exact ⟨t, List.mem_cons_self t [], rfl⟩
  | cons q r ih =>
    intro t ht hr
    have hq : q ≠ [] := hr q (List.mem_cons_self q r)
    have hr' : ∀ p ∈ r, p ≠ [] := fun p hp => hr p (List.mem_cons.mpr (Or.inr hp))
    obtain ⟨u, hu, he⟩ := ih q hq hr'
    refine ⟨u, List.mem_cons.mpr (Or.inr hu), ?_⟩
    rw [joinComma_cons_cons, List.append_assoc,
      getLast?_append_right (by simp), getLast?_append_right (joinComma_ne_nil hq r)]
    exact he

theorem splitComma_joinComma :
    ∀ (resto : List Token) (t : Token), ',' ∉ t → (∀ p ∈ resto, ',' ∉ p) →
      splitComma (joinComma (t :: resto)) = t :: resto.map (fun q => ' ' :: q) := by
  intro resto
  induction resto with
  | nil => intro t ht _; rw [joinComma, splitComma_single ht]; rfl
  | cons q r ih =>
    intro t ht hr
    have hq : ',' ∉ q := hr q (List.mem_cons_self q r)
    have hr' : ∀ p ∈ r, ',' ∉ p := fun p hp => hr p (List.mem_cons.mpr (Or.inr hp))
    have hstep : joinComma (t :: q :: r) = t ++ ',' :: ' ' :: joinComma (q :: r) := by
      rw [joinComma_cons_cons]; simp [List.append_assoc]
    rw [hstep, splitComma_append ht, splitComma]
    have hs := ih q hq hr'
    rw [if_neg (by decide), hs]
    rfl

/-- Every token produced by the tokenizer is non-empty, already stripped, and
free of commas. -/
theorem parse_fatos (x : Cell) {t : Token} (ht : t ∈ parse_multi_valor x) :
    t ≠ [] ∧ pyStrip t = t ∧ ',' ∉ t := by
  cases x with
  | none => simp [parse_multi_valor] at ht
  | some v =>
    by_cases h1 : pyStrip v = []
    · simp [parse_multi_valor, h1] at ht
    · simp only [parse_multi_valor, if_neg h1] at ht
      rw [List.mem_filter] at ht
      obtain ⟨hmem, hpred⟩ := ht
      rw [List.mem_map] at hmem
      obtain ⟨p, hp, hpt⟩ := hmem
      have htne : t ≠ [] := by
        intro hx; rw [hx] at hpred; simp at hpred
      have hfix : pyStrip t = t := by rw [← hpt]; exact pyStrip_idem p
      have hcomma : ',' ∉ t := by
        intro hin
        exact splitComma_no_comma _ p hp (mem_pyStrip (hpt ▸ hin))
      exact ⟨htne, hfix, hcomma⟩

/-- C4 (amended): re-tokenizing the `', '`-join of a tokenization returns the
original tokens whenever the joined string is not brace-wrapped, i.e. except
when the first token starts with a brace and the last token ends with one
(then the brace-stripping step of the tokenizer fires again and the claimed
idempotence fails, see the counterexample). -/
theorem claim_C4 (x : Cell)
    (h : ¬ ((joinComma (parse_multi_valor x)).head? = some '\x7b' ∧
            (joinComma (parse_multi_valor x)).getLast? = some '\x7d')) :
    parse_multi_valor (some (joinComma (parse_multi_valor x))) = parse_multi_valor x := by
  cases hts : parse_multi_valor x with
  | nil => decide
  | cons t resto =>
    rw [hts] at h
    have hf : ∀ p ∈ t :: resto, p ≠ [] ∧ pyStrip p = p ∧ ',' ∉ p :=
      fun p hp => parse_fatos x (hts ▸ hp)
    have ht : t ≠ [] := (hf t (List.mem_cons_self t resto)).1
    have hfix : pyStrip t = t := (hf t (List.mem_cons_self t resto)).2.1
    have hhead : ∀ c, (joinComma (t :: resto)).head? = some c → espaco c = false := by
      intro c hc
      rw [joinComma_head? ht] at hc
      rw [← hfix] at hc
      exact pyStrip_head?_nospace hc
    have hlast : ∀ c, (joinComma (t :: resto)).getLast? = some c → espaco c = false := by
      obtain ⟨u, hu, he⟩ := joinComma_getLast? resto t ht
        (fun p hp => (hf p (List.mem_cons.mpr (Or.inr hp))).1)
      intro c hc
      rw [he] at hc
      rw [← (hf u hu).2.1] at hc
      exact pyStrip_getLast?_nospace hc
    have hjstrip : pyStrip (joinComma (t :: resto)) = joinComma (t :: resto) :=
      pyStrip_eq_self hhead hlast
    have hjne : joinComma (t :: resto) ≠ [] := joinComma_ne_nil ht resto
    have hsplit := splitComma_joinComma resto t (hf t (List.mem_cons_self t resto)).2.2
      (fun p hp => (hf p (List.mem_cons.mpr (Or.inr hp))).2.2)
    have hmap : (t :: resto.map (fun q => ' ' :: q)).map pyStrip = t :: resto := by
      rw [List.map_cons, hfix, List.map_map]
      congr 1
      have hq : ∀ q ∈ resto, (pyStrip ∘ fun q => ' ' :: q) q = q := by
        intro q hq
        show pyStrip (' ' :: q) = q
        rw [pyStrip_cons_space (by decide)]
        exact (hf q (List.mem_cons.mpr (Or.inr hq))).2.1
      calc resto.map (pyStrip ∘ fun q => ' ' :: q) = resto.map id := List.map_congr_left hq
        _ = resto := List.map_id resto
    have hfilter : (t :: resto).filter (fun t => !t.isEmpty) = t :: resto := by
      rw [List.filter_eq_self]
      intro p hp
      have := (hf p hp).1
      simpa using this
    simp only [parse_multi_valor]
    rw [hjstrip, if_neg hjne, if_neg h, hsplit, hmap, hfilter]

/-- C4 is false as stated: the cell `"\x7b\x7ba\x7d\x7d"` tokenizes to the
single token `"\x7ba\x7d"`; joining and re-tokenizing strips the braces again
and yields `["a"]` instead. -/
theorem claim_C4_counterexample :
    parse_multi_valor (some (joinComma (parse_multi_valor (some "\x7b\x7ba\x7d\x7d".toList)))) ≠
      parse_multi_valor (some "\x7b\x7ba\x7d\x7d".toList) := by decide

/-- Witness for C4 at the spec's own tokenizer scenario input. -/
theorem claim_C4_witness :
    (¬ ((joinComma (parse_multi_valor (some "\x7b12480, 12521,  12480\x7d".toList))).head? = some '\x7b' ∧
        (joinComma (parse_multi_valor (some "\x7b12480, 12521,  12480\x7d".toList))).getLast? = some '\x7d')) ∧
      parse_multi_valor (some (joinComma (parse_multi_valor (some "\x7b12480, 12521,  12480\x7d".toList)))) =
        parse_multi_valor (some "\x7b12480, 12521,  12480\x7d".toList) :=
  ⟨by decide, claim_C4 (some "\x7b12480, 12521,  12480\x7d".toList) (by decide)⟩

/-! ### Accumulator lemmas -/

/-- Bool form of "this token is the confidentiality sentinel". -/
def tokenSigiloso (t : Token) : Bool := pyUpper (pyStrip t) == SENTINELA_SIGILOSO

/-- Folding the token loop over a flat token list (the inner double loop of
the accumulation, flattened). -/
def observe_tokens (st : FieldState) (ts : List Token) : FieldState :=
  ts.foldl observe_token st

theorem observe_cells_eq_tokens :
    ∀ (cells : List Cell) (st : FieldState),
      observe_cells st cells = observe_tokens st ((cells.map parse_multi_valor).flatten) := by
  intro cells
  induction cells with
  | nil => intro st; rfl
  | cons c cs ih =>
    intro st
    show observe_cells (observe_cell st c) cs = _
    rw [ih]
    show _ = observe_tokens st (parse_multi_valor c ++ (cs.map parse_multi_valor).flatten)
    unfold observe_tokens
    rw [List.foldl_append]
    rfl

theorem observe_token_sig {st : FieldState} {t : Token}
    (h : pyUpper (pyStrip t) = SENTINELA_SIGILOSO) :
    observe_token st t = ⟨st.contagens, st.contagem_sigiloso + 1⟩ := by
  simp [observe_token, h]

theorem observe_token_conta {st : FieldState} {t : Token}
    (h1 : pyUpper (pyStrip t) ≠ SENTINELA_SIGILOSO) (h2 : pyUpper (pyStrip t) ≠ []) :
    observe_token st t = ⟨incr st.contagens t, st.contagem_sigiloso⟩ := by
  simp [observe_token, h1, h2]

theorem observe_token_ignora {st : FieldState} {t : Token}
    (h : pyUpper (pyStrip t) = []) : observe_token st t = st := by
  have hne : ([] : List Char) ≠ SENTINELA_SIGILOSO := by decide
  simp [observe_token, h, hne]

theorem observe_tokens_sigiloso :
    ∀ (ts : List Token) (st : FieldState),
      (observe_tokens st ts).contagem_sigiloso =
        st.contagem_sigiloso + ts.countP tokenSigiloso := by
  intro ts
  induction ts with
  | nil => intro st; simp [observe_tokens]
  | cons t resto ih =>
    intro st
    show (observe_tokens (observe_token st t) resto).contagem_sigiloso = _
    rw [ih]
    by_cases h1 : pyUpper (pyStrip t) = SENTINELA_SIGILOSO
    · rw [observe_token_sig h1]
      have hp : tokenSigiloso t = true := by simp [tokenSigiloso, h1]
      simp [List.countP_cons, hp]
      omega
    · have hp : tokenSigiloso t = false := by simp [tokenSigiloso, h1]
      have hsame : (observe_token st t).contagem_sigiloso = st.contagem_sigiloso := by
        by_cases h2 : pyUpper (pyStrip t) = []
        · rw [observe_token_ignora h2]
        · rw [observe_token_conta h1 h2]
      rw [hsame]
      simp [List.countP_cons, hp]

theorem incr_mem_key {m : List (Token × Nat)} {t k : Token} {v : Nat}
    (h : (k, v) ∈ incr m t) : (∃ v', (k, v') ∈ m) ∨ k = t := by
  induction m with
  | nil =>
    simp [incr] at h
    exact Or.inr h.1
  | cons p resto ih =>
    obtain ⟨k0, v0⟩ := p
    rw [incr] at h
    by_cases hk : k0 = t
    · rw [if_pos hk] at h
      rcases List.mem_cons.mp h with h1 | h1
      · exact Or.inr (by rw [(Prod.mk.injEq _ _ _ _).mp h1 |>.1, hk])
      · exact Or.inl ⟨v, List.mem_cons.mpr (Or.inr h1)⟩
    · rw [if_neg hk] at h
      rcases List.mem_cons.mp h with h1 | h1
      · exact Or.inl ⟨v0, by rw [(Prod.mk.injEq _ _ _ _).mp h1 |>.1]; exact List.mem_cons_self _ _⟩
      · rcases ih h1 with ⟨v', hv⟩ | he
        · exact Or.inl ⟨v', List.mem_cons.mpr (Or.inr hv)⟩
        · exact Or.inr he

theorem lookupCount_incr_self (m : List (Token × Nat)) (t : Token) :
    lookupCount (incr m t) t = lookupCount m t + 1 := by
  induction m with
  | nil => simp [incr, lookupCount]
  | cons p resto ih =>
    obtain ⟨k0, v0⟩ := p
    rw [incr]
    by_cases hk : k0 = t
    · rw [if_pos hk, lookupCount, if_pos hk, lookupCount, if_pos hk]
    · rw [if_neg hk, lookupCount, if_neg hk, lookupCount, if_neg hk, ih]

theorem lookupCount_incr_other {m : List (Token × Nat)} {t k : Token} (h : k ≠ t) :
    lookupCount (incr m t) k = lookupCount m k := by
  induction m with
  | nil =>
    simp only [incr, lookupCount]
    rw [if_neg (fun hx => h hx.symm)]
  | cons p resto ih =>
    obtain ⟨k0, v0⟩ := p
    rw [incr]
    by_cases hk : k0 = t
    · have hk0 : k0 ≠ k := by rw [hk]; exact fun hx => h hx.symm
      rw [if_pos hk, lookupCount, if_neg hk0, lookupCount, if_neg hk0]
    · rw [if_neg hk, lookupCount, lookupCount, ih]

theorem observe_tokens_chaves :
    ∀ (ts : List Token) (st : FieldState),
      (∀ k v, (k, v) ∈ st.contagens → pyUpper (pyStrip k) ≠ SENTINELA_SIGILOSO) →
      ∀ k v, (k, v) ∈ (observe_tokens st ts).contagens →
        pyUpper (pyStrip k) ≠ SENTINELA_SIGILOSO := by
  intro ts
  induction ts with
  | nil => intro st h; exact h
  | cons t resto ih =>
    intro st h
    show ∀ k v, (k, v) ∈ (observe_tokens (observe_token st t) resto).contagens → _
    apply ih
    intro k v hk
    by_cases h1 : pyUpper (pyStrip t) = SENTINELA_SIGILOSO
    · rw [observe_token_sig h1] at hk
      exact h k v hk
    · by_cases h2 : pyUpper (pyStrip t) = []
      · rw [observe_token_ignora h2] at hk
        exact h k v hk
      · rw [observe_token_conta h1 h2] at hk
        rcases incr_mem_key hk with ⟨v', hv⟩ | he
        · exact h k v' hv
        · rw [he]; exact h1

theorem observe_tokens_conta_nonvazio :
    ∀ (ts : List Token) (st : FieldState) (t : Token),
      pyUpper (pyStrip t) ≠ SENTINELA_SIGILOSO → pyUpper (pyStrip t) ≠ [] →
      lookupCount (observe_tokens st ts).contagens t =
        lookupCount st.contagens t + ts.count t := by
  intro ts
  induction ts with
  | nil => intro st t _ _; simp [observe_tokens]
  | cons u resto ih =>
    intro st t h1 h2
    show lookupCount (observe_tokens (observe_token st u) resto).contagens t = _
    rw [ih _ t h1 h2, List.count_cons]
    by_cases hu : u = t
    · subst hu
      rw [observe_token_conta h1 h2]
      show lookupCount (incr st.contagens u) u + _ = _
      rw [lookupCount_incr_self]
      simp
      omega
    · have hne : (u == t) = false := by simp [hu]
      rw [hne]
      have hsame : lookupCount (observe_token st u).contagens t = lookupCount st.contagens t := by
        by_cases hu1 : pyUpper (pyStrip u) = SENTINELA_SIGILOSO
        · rw [observe_token_sig hu1]
        · by_cases hu2 : pyUpper (pyStrip u) = []
          · rw [observe_token_ignora hu2]
          · rw [observe_token_conta hu1 hu2]
            exact lookupCount_incr_other (fun hx => hu hx.symm)
      rw [hsame]
      simp

theorem observe_tokens_conta_vazio :
    ∀ (ts : List Token) (st : FieldState) (t : Token),
      pyUpper (pyStrip t) = [] →
      lookupCount (observe_tokens st ts).contagens t = lookupCount st.contagens t := by
  intro ts
  induction ts with
  | nil => intro st t _; rfl
  | cons u resto ih =>
    intro st t h
    show lookupCount (observe_tokens (observe_token st u) resto).contagens t = _
    rw [ih _ t h]
    by_cases hu1 : pyUpper (pyStrip u) = SENTINELA_SIGILOSO
    · rw [observe_token_sig hu1]
    · by_cases hu2 : pyUpper (pyStrip u) = []
      · rw [observe_token_ignora hu2]
      · rw [observe_token_conta hu1 hu2]
        have hut : t ≠ u := by
          intro hx; rw [hx] at h; exact hu2 h
        exact lookupCount_incr_other hut

theorem foldl_incr_count :
    ∀ (ts : List Token) (m : List (Token × Nat)) (t : Token),
      lookupCount (ts.foldl incr m) t = lookupCount m t + ts.count t := by
  intro ts
  induction ts with
  | nil => intro m t; simp
  | cons u resto ih =>
    intro m t
    show lookupCount (resto.foldl incr (incr m u)) t = _
    rw [ih, List.count_cons]
    by_cases hu : u = t
    · subst hu
      rw [lookupCount_incr_self]
      simp
      omega
    · have hne : (u == t) = false := by simp [hu]
      rw [hne, lookupCount_incr_other (fun hx => hu hx.symm)]
      simp

theorem observeCellsAO_eq_tokens :
    ∀ (cells : List Cell) (m : List (Token × Nat)),
      observeCellsAO m cells = ((cells.map parse_multi_valor).flatten).foldl incr m := by
  intro cells
  induction cells with
  | nil => intro m; rfl
  | cons c cs ih =>
    intro m
    show observeCellsAO (observeCellAO m c) cs = _
    rw [ih]
    show _ = List.foldl incr m (parse_multi_valor c ++ (cs.map parse_multi_valor).flatten)
    rw [List.foldl_append]
    rfl

/-- C2 (amended): in the accumulator shared by
`gerar_relatorio_analise_cnj.py` and `analise_output_sus.py`, per observed
token the sentinel (stripped-uppercased equal to `SIGILOSO`) increments only
the confidential counter; any other token with a non-empty stripped uppercase
form is counted under its original casing; a token whose stripped uppercase
form is empty is ignored.  Over any cell stream from the fresh accumulator,
the confidential counter equals the number of sentinel tokens, no key of the
distribution is ever the sentinel, and every non-sentinel token's stored
count equals its number of occurrences under exact original casing.  The
accumulator of `analise_output.py`, by contrast, keeps no confidential
counter: every parsed token — the sentinel included — is counted under its
original casing (last conjunct), which is where the original claim fails. -/
theorem claim_C2 (cells : List Cell) :
    (∀ (st : FieldState) (t : Token), pyUpper (pyStrip t) = SENTINELA_SIGILOSO →
      observe_token st t = ⟨st.contagens, st.contagem_sigiloso + 1⟩) ∧
    (∀ (st : FieldState) (t : Token),
      pyUpper (pyStrip t) ≠ SENTINELA_SIGILOSO → pyUpper (pyStrip t) ≠ [] →
      observe_token st t = ⟨incr st.contagens t, st.contagem_sigiloso⟩) ∧
    (∀ (st : FieldState) (t : Token), pyUpper (pyStrip t) = [] →
      observe_token st t = st) ∧
    (observe_cells estadoInicial cells).contagem_sigiloso =
      ((cells.map parse_multi_valor).flatten).countP tokenSigiloso ∧
    (∀ k v, (k, v) ∈ (observe_cells estadoInicial cells).contagens →
      pyUpper (pyStrip k) ≠ SENTINELA_SIGILOSO) ∧
    (∀ t : Token, pyUpper (pyStrip t) ≠ SENTINELA_SIGILOSO → pyUpper (pyStrip t) ≠ [] →
      lookupCount (observe_cells estadoInicial cells).contagens t =
        ((cells.map parse_multi_valor).flatten).count t) ∧
    (∀ t : Token, pyUpper (pyStrip t) = [] →
      lookupCount (observe_cells estadoInicial cells).contagens t = 0) ∧
    (∀ t : Token,
      lookupCount (observeCellsAO [] cells) t =
        ((cells.map parse_multi_valor).flatten).count t) := by
  refine ⟨fun st t h => observe_token_sig h,
    fun st t h1 h2 => observe_token_conta h1 h2,
    fun st t h => observe_token_ignora h, ?_, ?_, ?_, ?_, ?_⟩
  · rw [observe_cells_eq_tokens, observe_tokens_sigiloso]
    simp [estadoInicial]
  · rw [observe_cells_eq_tokens]
    exact observe_tokens_chaves _ _ (by intro k v h; simp [estadoInicial] at h)
  · intro t h1 h2
    rw [observe_cells_eq_tokens, observe_tokens_conta_nonvazio _ _ _ h1 h2]
    simp [estadoInicial, lookupCount]
  · intro t h
    rw [observe_cells_eq_tokens, observe_tokens_conta_vazio _ _ _ h]
    rfl
  · intro t
    rw [observeCellsAO_eq_tokens, foldl_incr_count]
    simp [lookupCount]

/-- C2 is false as stated for the accumulation loop of `analise_output.py`
(its own cited source): that loop has no confidential counter, so a token
whose stripped uppercased form equals the sentinel does become a key of the
field's distribution — scanning one row whose cell is `"\x7bSIGILOSO\x7d"`
returns the distribution with the key `"SIGILOSO"` carrying count 1. -/
theorem claim_C2_counterexample :
    pyUpper (pyStrip "SIGILOSO".toList) = SENTINELA_SIGILOSO ∧
    analisar_frequencias_ao 100000 ⟨["A"], [[("A", some "\x7bSIGILOSO\x7d".toList)]]⟩ ["A"] =
      some [("A", ⟨[("SIGILOSO".toList, 1)], 1⟩)] ∧
    lookupCount (observeCellsAO [] [some "\x7bSIGILOSO\x7d".toList]) "SIGILOSO".toList = 1 := by
  decide

/-- Witness for C2 at the one-row cell stream containing a named token and a
confidential token, exercising both accumulators. -/
theorem claim_C2_witness :
    (observe_cells estadoInicial [some "\x7bA, Sigiloso\x7d".toList]).contagem_sigiloso =
      (([some "\x7bA, Sigiloso\x7d".toList].map parse_multi_valor).flatten).countP tokenSigiloso ∧
    lookupCount (observe_cells estadoInicial [some "\x7bA, Sigiloso\x7d".toList]).contagens
        "A".toList =
      (([some "\x7bA, Sigiloso\x7d".toList].map parse_multi_valor).flatten).count "A".toList ∧
    lookupCount (observeCellsAO [] [some "\x7bA, Sigiloso\x7d".toList]) "Sigiloso".toList =
      (([some "\x7bA, Sigiloso\x7d".toList].map parse_multi_valor).flatten).count
        "Sigiloso".toList :=
  ⟨(claim_C2 [some "\x7bA, Sigiloso\x7d".toList]).2.2.2.1,
   (claim_C2 [some "\x7bA, Sigiloso\x7d".toList]).2.2.2.2.2.1 "A".toList
     (by decide) (by decide),
   (claim_C2 [some "\x7bA, Sigiloso\x7d".toList]).2.2.2.2.2.2.2 "Sigiloso".toList⟩

/-! ### Finalisation invariants -/

theorem sumCounts_ordenarDesc (m : List (Token × Nat)) :
    sumCounts (ordenarDesc m) = sumCounts m := by
  unfold sumCounts ordenarDesc
  exact List.Perm.sum_eq (List.Perm.map _ (List.perm_insertionSort _ m))

theorem finalize_invariante (st : FieldState) :
    sumCounts (finalize st).contagens + (finalize st).contagem_sigiloso =
      (finalize st).total_ocorrencias ∧
    ((finalize st).total_ocorrencias = 0 → finalize st = resultadoVazio) := by
  unfold finalize
  by_cases h : sumCounts st.contagens + st.contagem_sigiloso = 0
  · rw [if_pos h]
    exact ⟨by simp [resultadoVazio, sumCounts], fun _ => rfl⟩
  · rw [if_neg h]
    refine ⟨?_, fun h0 => absurd h0 h⟩
    show sumCounts (ordenarDesc st.contagens) + st.contagem_sigiloso = _
    rw [sumCounts_ordenarDesc]

theorem resultado_invariante {r : Resultado}
    (h : r = resultadoVazio ∨ ∃ st, r = finalize st) :
    sumCounts r.contagens + r.contagem_sigiloso = r.total_ocorrencias ∧
    (r.total_ocorrencias = 0 → r = resultadoVazio) := by
  rcases h with h | ⟨st, h⟩
  · subst h
    exact ⟨by simp [resultadoVazio, sumCounts], fun _ => rfl⟩
  · subst h
    exact finalize_invariante st

/-- Every per-column entry returned by the general scan is either the
explicit empty result or a finalisation of some accumulator state. -/
theorem analisar_entry_shape {k : Nat} {fonte : Fonte} {colunas : List String}
    {filtro : Option (String × List Token)} {res : List (String × Resultado)}
    (h : analisar_frequencias k fonte colunas filtro = some res) :
    ∀ p ∈ res, p.2 = resultadoVazio ∨ ∃ st, p.2 = finalize st := by
  simp only [analisar_frequencias] at h
  split at h
  · exact absurd h (by simp)
  · rw [Option.some.injEq] at h
    intro p hp
    rw [← h] at hp
    rcases List.mem_map.mp hp with ⟨col, _, hpe⟩
    rw [← hpe]
    by_cases hin : ((colunas.filter (fun c => fonte.header.contains c)).contains col) = true
    · exact Or.inr ⟨_, by rw [if_pos hin]⟩
    · exact Or.inl (by rw [if_neg hin])

/-- Every per-column entry returned by the entity-scoped scan of
`analise_output_sus.py` is likewise empty or a finalisation. -/
theorem analisar_sus_entry_shape {k : Nat} {fonte : Fonte} {colunas : List String}
    {cf : String} {chaves : List Token} {res : List (String × Resultado)}
    (h : analisar_frequencias_entes_publicos k fonte colunas cf chaves = some res) :
    ∀ p ∈ res, p.2 = resultadoVazio ∨ ∃ st, p.2 = finalize st := by
  simp only [analisar_frequencias_entes_publicos] at h
  split at h
  · exact absurd h (by simp)
  · rw [Option.some.injEq] at h
    intro p hp
    rw [← h] at hp
    rcases List.mem_map.mp hp with ⟨col, _, hpe⟩
    rw [← hpe]
    by_cases hin : (fonte.header.contains col) = true
    · exact Or.inr ⟨_, by rw [if_pos hin]⟩
    · exact Or.inl (by rw [if_neg hin])

/-- C1: after any completed scan (general driver and entity-scoped driver
alike), every field result satisfies `sum(distribution) + confidential =
total_ocorrencias`, and a field with no observed occurrences is reported as
the explicit empty result (empty distribution, zero total) instead of
failing. -/
theorem claim_C1 :
    (∀ (k : Nat) (fonte : Fonte) (colunas : List String)
        (filtro : Option (String × List Token)) (res : List (String × Resultado)),
      analisar_frequencias k fonte colunas filtro = some res →
      ∀ p ∈ res, sumCounts p.2.contagens + p.2.contagem_sigiloso = p.2.total_ocorrencias ∧
        (p.2.total_ocorrencias = 0 → p.2 = resultadoVazio)) ∧
    (∀ (k : Nat) (fonte : Fonte) (colunas : List String) (cf : String)
        (chaves : List Token) (res : List (String × Resultado)),
      analisar_frequencias_entes_publicos k fonte colunas cf chaves = some res →
      ∀ p ∈ res, sumCounts p.2.contagens + p.2.contagem_sigiloso = p.2.total_ocorrencias ∧
        (p.2.total_ocorrencias = 0 → p.2 = resultadoVazio)) := by
  constructor
  · intro k fonte colunas filtro res h p hp
    exact resultado_invariante (analisar_entry_shape h p hp)
  · intro k fonte colunas cf chaves res h p hp
    exact resultado_invariante (analisar_sus_entry_shape h p hp)

/-- Witness for C1: a completed one-column scan whose field result satisfies
the invariant. -/
theorem claim_C1_witness :
    sumCounts (⟨[("x".toList, 1)], 1, 0⟩ : Resultado).contagens +
        (⟨[("x".toList, 1)], 1, 0⟩ : Resultado).contagem_sigiloso =
      (⟨[("x".toList, 1)], 1, 0⟩ : Resultado).total_ocorrencias ∧
    ((⟨[("x".toList, 1)], 1, 0⟩ : Resultado).total_ocorrencias = 0 →
      (⟨[("x".toList, 1)], 1, 0⟩ : Resultado) = resultadoVazio) :=
  claim_C1.1 2 ⟨["A"], [[("A", some "x".toList)]]⟩ ["A"] none
    [("A", ⟨[("x".toList, 1)], 1, 0⟩)] (by decide)
    ("A", ⟨[("x".toList, 1)], 1, 0⟩) (by decide)

/-! ### Substring semantics of the classifier -/

theorem comecaCom_iff : ∀ (n h : List Char), comecaCom n h = true ↔ ∃ rest, h = n ++ rest := by
  intro n
  induction n with
  | nil => intro h; simp [comecaCom]
  | cons a ra ih =>
    intro h
    cases h with
    | nil =>
      simp [comecaCom]
    | cons b rb =>
      rw [comecaCom]
      simp only [Bool.and_eq_true, beq_iff_eq]
      rw [ih rb]
      constructor
      · rintro ⟨hab, rest, hr⟩
        exact ⟨rest, by rw [hab, hr, List.cons_append]⟩
      · rintro ⟨rest, hr⟩
        rw [List.cons_append] at hr
        rw [List.cons.injEq] at hr
        exact ⟨hr.1.symm, rest, hr.2⟩

theorem contemSub_iff : ∀ (h n : List Char),
    contemSub n h = true ↔ ∃ pre post, h = pre ++ n ++ post := by
  intro h
  induction h with
  | nil =>
    intro n
    rw [contemSub]
    constructor
    · intro hn
      exact ⟨[], [], by simp [List.isEmpty_iff.mp hn]⟩
    · rintro ⟨pre, post, hp⟩
      have h0 : pre ++ n ++ post = [] := hp.symm
      rw [List.append_assoc, List.append_eq_nil] at h0
      have h1 := List.append_eq_nil.mp h0.2
      rw [List.isEmpty_iff, h1.1]
    | cons c t ih =>
      intro n
      rw [contemSub, Bool.or_eq_true, comecaCom_iff, ih n]
      constructor
      · rintro (⟨rest, hr⟩ | ⟨pre, post, hp⟩)
        · exact ⟨[], rest, by simpa using hr⟩
        · exact ⟨c :: pre, post, by rw [hp]; simp⟩
      · rintro ⟨pre, post, hp⟩
        cases pre with
        | nil => exact Or.inl ⟨post, by simpa using hp⟩
        | cons c' pre' =>
          rw [List.cons_append, List.cons_append, List.cons.injEq] at hp
          exact Or.inr ⟨pre', post, hp.2⟩

/-- C5: the classifier returns true exactly when some decoded token of the
cell, uppercased, contains some keyword of the keyword set as a contiguous
substring (so it is false for a missing cell or an empty token list); in
particular `"Autarquia Municipal"` does not match keyword set
`[MUNICIPIO, UNIAO]` while `"Municipio de Exemplo"` does. -/
theorem claim_C5 :
    (∀ (c : Cell) (chaves : List Token),
      eh_ente_publico c chaves = true ↔
        ∃ t ∈ parse_multi_valor c, ∃ ch ∈ chaves,
          ∃ pre post, pyUpper t = pre ++ ch ++ post) ∧
    eh_ente_publico (some "\x7bAutarquia Municipal\x7d".toList)
      ["MUNICIPIO".toList, "UNIAO".toList] = false ∧
    eh_ente_publico (some "\x7bMunicipio de Exemplo\x7d".toList)
      ["MUNICIPIO".toList, "UNIAO".toList] = true := by
  refine ⟨?_, by decide, by decide⟩
  intro c chaves
  cases c with
  | none => simp [eh_ente_publico, parse_multi_valor]
  | some v =>
    simp only [eh_ente_publico]
    by_cases he : (parse_multi_valor (some v)).isEmpty
    · rw [if_pos he]
      have hnil : parse_multi_valor (some v) = [] := List.isEmpty_iff.mp he
      simp [hnil]
    · rw [if_neg he]
      simp only [List.any_eq_true, contemSub_iff]

/-- Witness for C5: the iff applied at the matching concrete cell. -/
theorem claim_C5_witness :
    ∃ t ∈ parse_multi_valor (some "\x7bMunicipio de Exemplo\x7d".toList),
      ∃ ch ∈ ["MUNICIPIO".toList, "UNIAO".toList],
        ∃ pre post, pyUpper t = pre ++ ch ++ post :=
  (claim_C5.1 (some "\x7bMunicipio de Exemplo\x7d".toList)
    ["MUNICIPIO".toList, "UNIAO".toList]).mp (by decide)

/-! ### Batch-size independence -/

theorem chunksAux_flatten {α : Type} (k : Nat) :
    ∀ (fuel : Nat) (l : List α), (chunksAux k fuel l).flatten = l := by
  intro fuel
  induction fuel with
  | zero =>
    intro l
    cases l with
    | nil => rfl
    | cons a t => simp [chunksAux]
  | succ fuel ih =>
    intro l
    cases l with
    | nil => rfl
    | cons a t =>
      show (List.take k (a :: t) :: chunksAux k fuel (List.drop k (a :: t))).flatten = a :: t
      rw [List.flatten_cons, ih, List.take_append_drop]

theorem chunks_flatten {α : Type} (k : Nat) (l : List α) : (chunks k l).flatten = l :=
  chunksAux_flatten k l.length l

theorem foldl_processarChunk_none (existentes : List String) :
    ∀ (chs : List (List Row)) (st : String → FieldState) (col : String),
      (chs.foldl (processarChunk none existentes) st) col =
        if existentes.contains col then
          observe_cells (st col) (chs.flatten.map (fun r => getCell r col))
        else st col := by
  intro chs
  induction chs with
  | nil =>
    intro st col
    simp [observe_cells]
  | cons ch chs ih =>
    intro st col
    show (chs.foldl (processarChunk none existentes) (processarChunk none existentes st ch)) col = _
    rw [ih]
    by_cases hc : existentes.contains col = true
    · rw [if_pos hc, if_pos hc]
      show observe_cells (processarChunk none existentes st ch col) _ = _
      rw [List.flatten_cons, List.map_append]
      show observe_cells (if existentes.contains col = true then _ else _) _ = _
      rw [if_pos hc]
      unfold observe_cells
      rw [List.foldl_append]
    · rw [if_neg hc, if_neg hc]
      show processarChunk none existentes st ch col = st col
      show (if existentes.contains col = true then _ else st col) = st col
      rw [if_neg hc]

theorem foldl_processarChunk_some (cf : String) (chaves : List Token) (existentes : List String) :
    ∀ (chs : List (List Row)) (st : String → FieldState) (col : String),
      (chs.foldl (processarChunk (some (cf, chaves)) existentes) st) col =
        if existentes.contains col then
          observe_cells (st col)
            ((chs.flatten.filter (fun r => eh_ente_publico (getCell r cf) chaves)).map
              (fun r => getCell r col))
        else st col := by
  intro chs
  induction chs with
  | nil =>
    intro st col
    simp [observe_cells]
  | cons ch chs ih =>
    intro st col
    show (chs.foldl (processarChunk (some (cf, chaves)) existentes)
      (processarChunk (some (cf, chaves)) existentes st ch)) col = _
    rw [ih]
    by_cases hc : existentes.contains col = true
    · rw [if_pos hc, if_pos hc]
      show observe_cells (processarChunk (some (cf, chaves)) existentes st ch col) _ = _
      rw [List.flatten_cons, List.filter_append, List.map_append]
      show observe_cells (if existentes.contains col = true then _ else _) _ = _
      rw [if_pos hc]
      unfold observe_cells
      rw [List.foldl_append]
    · rw [if_neg hc, if_neg hc]
      show processarChunk (some (cf, chaves)) existentes st ch col = st col
      show (if existentes.contains col = true then _ else st col) = st col
      rw [if_neg hc]

theorem analisar_chunked_eq_spec (k : Nat) (fonte : Fonte) (colunas : List String)
    (filtro : Option (String × List Token)) :
    analisar_frequencias k fonte colunas filtro =
      analisar_frequencias_spec fonte colunas filtro := by
  cases filtro with
  | none =>
    simp only [analisar_frequencias, analisar_frequencias_spec]
    by_cases hex : ((colunas.filter (fun c => fonte.header.contains c)).isEmpty) = true
    · rw [if_pos hex, if_pos hex]
    · rw [if_neg hex, if_neg hex]
      congr 1
      apply List.map_congr_left
      intro col _
      by_cases hc : ((colunas.filter (fun c => fonte.header.contains c)).contains col) = true
      · rw [if_pos hc, if_pos hc]
        congr 1
        rw [foldl_processarChunk_none, if_pos hc, chunks_flatten]
      · rw [if_neg hc, if_neg hc]
  | some p =>
    obtain ⟨cf, chaves⟩ := p
    simp only [analisar_frequencias, analisar_frequencias_spec]
    by_cases hex : ((colunas.filter (fun c => fonte.header.contains c)).isEmpty) = true
    · rw [if_pos hex, if_pos hex]
    · rw [if_neg hex, if_neg hex]
      congr 1
      by_cases hcf : (fonte.header.contains cf) = true
      · rw [if_pos hcf]
        apply List.map_congr_left
        intro col _
        by_cases hc : ((colunas.filter (fun c => fonte.header.contains c)).contains col) = true
        · rw [if_pos hc, if_pos hc]
          congr 1
          rw [foldl_processarChunk_some, if_pos hc, chunks_flatten]
        · rw [if_neg hc, if_neg hc]
      · rw [if_neg hcf]
        apply List.map_congr_left
        intro col _
        by_cases hc : ((colunas.filter (fun c => fonte.header.contains c)).contains col) = true
        · rw [if_pos hc, if_pos hc]
          congr 1
          rw [foldl_processarChunk_none, if_pos hc, chunks_flatten]
        · rw [if_neg hc, if_neg hc]

theorem foldl_processarChunkAO (existentes : List String) :
    ∀ (chs : List (List Row)) (st : String → List (Token × Nat)) (col : String),
      (chs.foldl (processarChunkAO existentes) st) col =
        if existentes.contains col then
          observeCellsAO (st col) (chs.flatten.map (fun r => getCell r col))
        else st col := by
  intro chs
  induction chs with
  | nil =>
    intro st col
    simp [observeCellsAO]
  | cons ch chs ih =>
    intro st col
    show (chs.foldl (processarChunkAO existentes) (processarChunkAO existentes st ch)) col = _
    rw [ih]
    by_cases hc : existentes.contains col = true
    · rw [if_pos hc, if_pos hc]
      show observeCellsAO (processarChunkAO existentes st ch col) _ = _
      rw [List.flatten_cons, List.map_append]
      show observeCellsAO (if existentes.contains col = true then _ else _) _ = _
      rw [if_pos hc]
      unfold observeCellsAO
      rw [List.foldl_append]
    · rw [if_neg hc, if_neg hc]
      show processarChunkAO existentes st ch col = st col
      show (if existentes.contains col = true then _ else st col) = st col
      rw [if_neg hc]

theorem analisar_ao_chunked_eq_spec (k : Nat) (fonte : Fonte) (colunas : List String) :
    analisar_frequencias_ao k fonte colunas = analisar_frequencias_ao_spec fonte colunas := by
  simp only [analisar_frequencias_ao, analisar_frequencias_ao_spec]
  by_cases hex : ((colunas.filter (fun c => fonte.header.contains c)).isEmpty) = true
  · rw [if_pos hex, if_pos hex]
  · rw [if_neg hex, if_neg hex]
    congr 1
    apply List.map_congr_left
    intro col hcol
    have hc : ((colunas.filter (fun c => fonte.header.contains c)).contains col) = true :=
      List.contains_iff_exists_mem_beq.mpr ⟨col, hcol, by simp⟩
    congr 1
    rw [foldl_processarChunkAO, if_pos hc, chunks_flatten]

/-- C6: for every source and configuration, the chunked scans of
`gerar_relatorio_analise_cnj.py` and of `analise_output.py` return, for any
positive batch size, exactly the single-pass aggregate — batch size has no
effect on the final per-field results. -/
theorem claim_C6 :
    (∀ (k : Nat) (fonte : Fonte) (colunas : List String)
        (filtro : Option (String × List Token)), 0 < k →
      analisar_frequencias k fonte colunas filtro =
        analisar_frequencias_spec fonte colunas filtro) ∧
    (∀ (k : Nat) (fonte : Fonte) (colunas : List String), 0 < k →
      analisar_frequencias_ao k fonte colunas = analisar_frequencias_ao_spec fonte colunas) :=
  ⟨fun k fonte colunas filtro _ => analisar_chunked_eq_spec k fonte colunas filtro,
   fun k fonte colunas _ => analisar_ao_chunked_eq_spec k fonte colunas⟩

/-- Witness for C6: a two-row source scanned with batch size 1 equals the
single-pass scan. -/
theorem claim_C6_witness :
    analisar_frequencias 1 ⟨["A"], [[("A", some "x".toList)], [("A", some "x, y".toList)]]⟩
        ["A"] none =
      analisar_frequencias_spec ⟨["A"], [[("A", some "x".toList)], [("A", some "x, y".toList)]]⟩
        ["A"] none :=
  claim_C6.1 1 ⟨["A"], [[("A", some "x".toList)], [("A", some "x, y".toList)]]⟩ ["A"] none
    (by decide)

/-! ### Missing-column behaviour -/

theorem contains_filter_eq_false {l : List String} {p : String → Bool} {x : String}
    (hx : p x = false) : (l.filter p).contains x = false := by
  by_cases h : (l.filter p).contains x = true
  · obtain ⟨a, ha, hab⟩ := List.contains_iff_exists_mem_beq.mp h
    have hax : x = a := by simpa using hab
    have := (List.mem_filter.mp ha).2
    rw [← hax] at this
    rw [this] at hx
    cases hx
  · simpa using h

/-- A requested filter column absent from the header deactivates filtering in
the general scan (`gerar_relatorio_analise_cnj.py` line 118). -/
theorem analisar_filtro_ausente (k : Nat) (fonte : Fonte) (colunas : List String)
    (cf : String) (chaves : List Token) (hcf : fonte.header.contains cf = false) :
    analisar_frequencias k fonte colunas (some (cf, chaves)) =
      analisar_frequencias k fonte colunas none := by
  simp only [analisar_frequencias]
  rw [hcf, if_neg (by decide : ¬ (false = true))]

/-- The general scan returns a result whenever some analysed column exists. -/
theorem analisar_isSome (k : Nat) (fonte : Fonte) (colunas : List String)
    (filtro : Option (String × List Token))
    (hex : ((colunas.filter (fun c => fonte.header.contains c)).isEmpty) = false) :
    (analisar_frequencias k fonte colunas filtro).isSome = true := by
  simp only [analisar_frequencias]
  rw [hex]
  rfl

/-- C7 (amended): in `gerar_relatorio_analise_cnj.py`, a requested filter
column that is absent from the header degrades the scan to unfiltered mode
and, provided at least one analysed column exists, still returns a result;
in `analise_output_sus.py`, whose filter column is mandatory, the same
situation is instead fatal: the scan returns `None`. -/
theorem claim_C7 :
    (∀ (k : Nat) (fonte : Fonte) (colunas : List String) (cf : String) (chaves : List Token),
      fonte.header.contains cf = false →
      ((colunas.filter (fun c => fonte.header.contains c)).isEmpty) = false →
      analisar_frequencias k fonte colunas (some (cf, chaves)) =
          analisar_frequencias k fonte colunas none ∧
        (analisar_frequencias k fonte colunas none).isSome = true) ∧
    (∀ (k : Nat) (fonte : Fonte) (colunas : List String) (cf : String) (chaves : List Token),
      fonte.header.contains cf = false →
      analisar_frequencias_entes_publicos k fonte colunas cf chaves = none) := by
  constructor
  · intro k fonte colunas cf chaves hcf hex
    exact ⟨analisar_filtro_ausente k fonte colunas cf chaves hcf,
      analisar_isSome k fonte colunas none hex⟩
  · intro k fonte colunas cf chaves hcf
    simp only [analisar_frequencias_entes_publicos]
    rw [hcf]
    rfl

/-- C7 is false as stated for `analise_output_sus.py`: with header
`["Polo ativo"]` (so one analysed field is present) and the filter field
`"Polo passivo - Natureza juridica"` absent, its scan fails with `None`
instead of proceeding unfiltered. -/
theorem claim_C7_counterexample :
    ((["Polo ativo"] : List String).contains "Polo ativo") = true ∧
    ((["Polo ativo"] : List String).contains "Polo passivo - Natureza juridica") = false ∧
    analisar_frequencias_entes_publicos 100000 ⟨["Polo ativo"], []⟩
      ["Polo ativo", "Polo passivo - Natureza juridica"]
      "Polo passivo - Natureza juridica" [] = none := by
  decide

/-- Witness for C7: concrete degraded scan of the general driver. -/
theorem claim_C7_witness :
    analisar_frequencias 3 ⟨["A"], []⟩ ["A"] (some ("F", [])) =
        analisar_frequencias 3 ⟨["A"], []⟩ ["A"] none ∧
      (analisar_frequencias 3 ⟨["A"], []⟩ ["A"] none).isSome = true :=
  claim_C7.1 3 ⟨["A"], []⟩ ["A"] "F" [] (by decide) (by decide)

/-- C8: when none of the requested analysed columns appears in the source
header, each of the three scans fails for that source with `None` and
produces no partial result (for the entity-scoped scan of
`analise_output_sus.py` this is stated under its repository configuration,
in which the filter column is itself one of the analysed columns). -/
theorem claim_C8 :
    (∀ (k : Nat) (fonte : Fonte) (colunas : List String)
        (filtro : Option (String × List Token)),
      ((colunas.filter (fun c => fonte.header.contains c)).isEmpty) = true →
      analisar_frequencias k fonte colunas filtro = none) ∧
    (∀ (k : Nat) (fonte : Fonte) (colunas : List String),
      ((colunas.filter (fun c => fonte.header.contains c)).isEmpty) = true →
      analisar_frequencias_ao k fonte colunas = none) ∧
    (∀ (k : Nat) (fonte : Fonte) (colunas : List String) (cf : String) (chaves : List Token),
      cf ∈ colunas →
      ((colunas.filter (fun c => fonte.header.contains c)).isEmpty) = true →
      analisar_frequencias_entes_publicos k fonte colunas cf chaves = none) := by
  refine ⟨?_, ?_, ?_⟩
  · intro k fonte colunas filtro hex
    simp only [analisar_frequencias]
    rw [hex, if_pos rfl]
  · intro k fonte colunas hex
    simp only [analisar_frequencias_ao]
    rw [hex, if_pos rfl]
  · intro k fonte colunas cf chaves hcf hex
    have hnil : colunas.filter (fun c => fonte.header.contains c) = [] :=
      List.isEmpty_iff.mp hex
    have hall := List.filter_eq_nil_iff.mp hnil
    have hcontains : fonte.header.contains cf = false := by
      have := hall cf hcf
      simpa using this
    simp only [analisar_frequencias_entes_publicos]
    rw [hcontains]
    rfl

/-- Witness for C8: a source whose header has none of the requested columns. -/
theorem claim_C8_witness :
    analisar_frequencias 5 ⟨["X"], [[("X", some "v".toList)]]⟩ ["A", "B"] none = none :=
  claim_C8.1 5 ⟨["X"], [[("X", some "v".toList)]]⟩ ["A", "B"] none (by decide)

/-- C9 (amended): the scans of `gerar_relatorio_analise_cnj.py` and
`analise_output_sus.py` return one entry per requested analysed column, with
columns absent from the header mapped to the explicit empty result; the scan
of `analise_output.py`, by contrast, returns entries only for the requested
columns present in the header, omitting absent ones. -/
theorem claim_C9 :
    (∀ (k : Nat) (fonte : Fonte) (colunas : List String)
        (filtro : Option (String × List Token)) (res : List (String × Resultado)),
      analisar_frequencias k fonte colunas filtro = some res →
      res.map Prod.fst = colunas ∧
      ∀ col ∈ colunas, fonte.header.contains col = false → (col, resultadoVazio) ∈ res) ∧
    (∀ (k : Nat) (fonte : Fonte) (colunas : List String) (cf : String)
        (chaves : List Token) (res : List (String × Resultado)),
      analisar_frequencias_entes_publicos k fonte colunas cf chaves = some res →
      res.map Prod.fst = colunas ∧
      ∀ col ∈ colunas, fonte.header.contains col = false → (col, resultadoVazio) ∈ res) ∧
    (∀ (k : Nat) (fonte : Fonte) (colunas : List String) (res : List (String × ResultadoAO)),
      analisar_frequencias_ao k fonte colunas = some res →
      res.map Prod.fst = colunas.filter (fun c => fonte.header.contains c)) := by
  refine ⟨?_, ?_, ?_⟩
  · intro k fonte colunas filtro res h
    simp only [analisar_frequencias] at h
    split at h
    · exact absurd h (by simp)
    · rw [Option.some.injEq] at h
      rw [← h]
      constructor
      · rw [List.map_map]
        exact (List.map_congr_left (fun col _ => rfl)).trans (List.map_id colunas)
      · intro col hcol hcont
        apply List.mem_map.mpr
        refine ⟨col, hcol, ?_⟩
        rw [if_neg (by rw [contains_filter_eq_false hcont]; exact fun hx => nomatch hx)]
  · intro k fonte colunas cf chaves res h
    simp only [analisar_frequencias_entes_publicos] at h
    split at h
    · exact absurd h (by simp)
    · rw [Option.some.injEq] at h
      rw [← h]
      constructor
      · rw [List.map_map]
        exact (List.map_congr_left (fun col _ => rfl)).trans (List.map_id colunas)
      · intro col hcol hcont
        apply List.mem_map.mpr
        refine ⟨col, hcol, ?_⟩
        rw [if_neg (by rw [hcont]; exact fun hx => nomatch hx)]
  · intro k fonte colunas res h
    simp only [analisar_frequencias_ao] at h
    split at h
    · exact absurd h (by simp)
    · rw [Option.some.injEq] at h
      rw [← h, List.map_map]
      exact (List.map_congr_left (fun col _ => rfl)).trans (List.map_id _)

/-- C9 is false as stated: `analise_output.py`'s scan of a source with header
`["A"]`, requested columns `["A", "B"]`, succeeds but returns a result with
an entry for `"A"` only — the absent requested column `"B"` is omitted
entirely instead of receiving an explicit empty entry. -/
theorem claim_C9_counterexample :
    ((["A"] : List String).contains "B") = false ∧
    (analisar_frequencias_ao 100000 ⟨["A"], [[("A", some "x".toList)]]⟩ ["A", "B"]).map
        (fun l => l.map Prod.fst) = some ["A"] := by
  decide

/-- Witness for C9: the general driver's scan with one present and one absent
requested column yields entries for both, the absent one explicitly empty. -/
theorem claim_C9_witness :
    ([("A", resultadoVazio), ("B", resultadoVazio)].map Prod.fst = (["A", "B"] : List String)) ∧
    (∀ col ∈ (["A", "B"] : List String), (["A"] : List String).contains col = false →
      (col, resultadoVazio) ∈ [("A", resultadoVazio), ("B", resultadoVazio)]) :=
  claim_C9.1 1 ⟨["A"], []⟩ ["A", "B"] none
    [("A", resultadoVazio), ("B", resultadoVazio)] (by decide)

/-! ### Presentation-table percentages -/

theorem pct_rows_df1 (T : Nat) (ps : List (Token × Nat)) :
    ∀ l ∈ ps.map (fun p => (p.1, (p.2 : Int), formatFixed2Pct (p.2 : Int) T)),
      l.2.2 = formatFixed2Pct l.2.1 T := by
  intro l hl
  rcases List.mem_map.mp hl with ⟨p, _, hpx⟩
  rw [← hpx]

theorem pct_rows_append {T : Nat} {a b : List Linha}
    (ha : ∀ l ∈ a, l.2.2 = formatFixed2Pct l.2.1 T)
    (hb : ∀ l ∈ b, l.2.2 = formatFixed2Pct l.2.1 T) :
    ∀ l ∈ a ++ b, l.2.2 = formatFixed2Pct l.2.1 T := by
  intro l hl
  rcases List.mem_append.mp hl with hl | hl
  · exact ha l hl
  · exact hb l hl

theorem pct_rows_ite {T : Nat} {c : Prop} [Decidable c] {a b : List Linha}
    (ha : ∀ l ∈ a, l.2.2 = formatFixed2Pct l.2.1 T)
    (hb : ∀ l ∈ b, l.2.2 = formatFixed2Pct l.2.1 T) :
    ∀ l ∈ (if c then a else b), l.2.2 = formatFixed2Pct l.2.1 T := by
  by_cases hc : c
  · rw [if_pos hc]; exact ha
  · rw [if_neg hc]; exact hb

theorem pct_rows_single {T : Nat} {lab : List Char} {n : Int} :
    ∀ l ∈ [(lab, n, formatFixed2Pct n T)], l.2.2 = formatFixed2Pct l.2.1 T := by
  intro l hl
  rw [List.mem_singleton.mp hl]

theorem table_conclusion {X linhas : List Linha} {T : Nat}
    (hX : ∀ l ∈ X, l.2.2 = formatFixed2Pct l.2.1 T)
    (h : (if X = [] then none
          else some (X ++ [("TOTAL GERAL".toList, (T : Int), "100.00%".toList)])) =
        some linhas) :
    linhas ≠ [] ∧
    linhas.getLast? = some ("TOTAL GERAL".toList, (T : Int), "100.00%".toList) ∧
    ∀ l ∈ linhas.dropLast, l.2.2 = formatFixed2Pct l.2.1 T := by
  by_cases hx : X = []
  · rw [if_pos hx] at h
    exact absurd h (by simp)
  · rw [if_neg hx] at h
    rw [Option.some.injEq] at h
    subst h
    refine ⟨by simp, List.getLast?_concat _, ?_⟩
    rw [List.dropLast_concat]
    exact hX

/-- C3: whenever the summariser produces a table, the table is non-empty, its
final row is always `TOTAL GERAL` with the grand total and the literal
`100.00%`, and every earlier row's percentage is its count over
`total_ocorrencias` (the grand total including confidential occurrences,
never the valid-only total) formatted to two decimal places; in particular
distribution `[A:2, B:1]` with confidential count 1, total 4 and `top_n = 1`
yields exactly the rows A 50.00, Outros 25.00, Sigiloso 25.00, total
100.00. -/
theorem claim_C3 :
    (∀ (dados : Resultado) (top_n : Nat) (linhas : List Linha),
      formatar_tabela_analise dados top_n = some linhas →
      linhas ≠ [] ∧
      linhas.getLast? =
        some ("TOTAL GERAL".toList, (dados.total_ocorrencias : Int), "100.00%".toList) ∧
      ∀ l ∈ linhas.dropLast, l.2.2 = formatFixed2Pct l.2.1 dados.total_ocorrencias) ∧
    formatar_tabela_analise ⟨[("A".toList, 2), ("B".toList, 1)], 4, 1⟩ 1 =
      some [("A".toList, 2, "50.00%".toList),
            (rotuloOutros 1, 1, "25.00%".toList),
            ("Sigiloso".toList, 1, "25.00%".toList),
            ("TOTAL GERAL".toList, 4, "100.00%".toList)] := by
  constructor
  · intro dados top_n linhas h
    simp only [formatar_tabela_analise] at h
    by_cases h0 : dados.total_ocorrencias = 0
    · rw [if_pos h0] at h
      exact absurd h (by simp)
    · rw [if_neg h0] at h
      exact table_conclusion
        (pct_rows_ite
          (pct_rows_append
            (pct_rows_ite (pct_rows_append (pct_rows_df1 _ _) pct_rows_single)
              (pct_rows_df1 _ _))
            pct_rows_single)
          (pct_rows_ite (pct_rows_append (pct_rows_df1 _ _) pct_rows_single)
            (pct_rows_df1 _ _)))
        h
  · decide

/-- Witness for C3: the row-shape property instantiated at the spec's own
summariser scenario. -/
theorem claim_C3_witness :
    ([("A".toList, (2 : Int), "50.00%".toList),
      (rotuloOutros 1, 1, "25.00%".toList),
      ("Sigiloso".toList, 1, "25.00%".toList),
      ("TOTAL GERAL".toList, 4, "100.00%".toList)] : List Linha) ≠ [] ∧
    ([("A".toList, (2 : Int), "50.00%".toList),
      (rotuloOutros 1, 1, "25.00%".toList),
      ("Sigiloso".toList, 1, "25.00%".toList),
      ("TOTAL GERAL".toList, 4, "100.00%".toList)] : List Linha).getLast? =
      some ("TOTAL GERAL".toList,
        ((⟨[("A".toList, 2), ("B".toList, 1)], 4, 1⟩ : Resultado).total_ocorrencias : Int),
        "100.00%".toList) ∧
    ∀ l ∈ ([("A".toList, (2 : Int), "50.00%".toList),
      (rotuloOutros 1, 1, "25.00%".toList),
      ("Sigiloso".toList, 1, "25.00%".toList),
      ("TOTAL GERAL".toList, 4, "100.00%".toList)] : List Linha).dropLast,
      l.2.2 = formatFixed2Pct l.2.1
        (⟨[("A".toList, 2), ("B".toList, 1)], 4, 1⟩ : Resultado).total_ocorrencias :=
  claim_C3.1 ⟨[("A".toList, 2), ("B".toList, 1)], 4, 1⟩ 1
    [("A".toList, (2 : Int), "50.00%".toList),
     (rotuloOutros 1, 1, "25.00%".toList),
     ("Sigiloso".toList, 1, "25.00%".toList),
     ("TOTAL GERAL".toList, 4, "100.00%".toList)] (by decide)

theorem formatFixed2Pct_self (s : Nat) (hs : 0 < s) :
    formatFixed2Pct (s : Int) s = "100.00%".toList := by
  have hne : (s : Int) ≠ 0 := Int.natCast_ne_zero.mpr hs.ne'
  have hsi : (0 : Int) < (s : Int) := by exact_mod_cast hs
  have hf : Int.fdiv ((s : Int) * 10000) (s : Int) = 10000 :=
    Int.mul_fdiv_cancel_left 10000 hne
  simp only [formatFixed2Pct, roundHalfEvenDiv, hf]
  have hr : (s : Int) * 10000 - 10000 * (s : Int) = 0 := by ring
  rw [hr]
  rw [if_pos (by omega : (2 : Int) * 0 < (s : Int))]
  decide

/-- C10: a field result with an empty distribution, a positive confidential
count and total equal to it is rendered as exactly two rows: the `Sigiloso`
row carrying the whole count at `100.00%`, then the `TOTAL GERAL` row — no
Top-N rows and no `Outros` row. -/
theorem claim_C10 (s : Nat) (top_n : Nat) (hs : 0 < s) :
    formatar_tabela_analise ⟨[], s, s⟩ top_n =
      some [("Sigiloso".toList, (s : Int), "100.00%".toList),
            ("TOTAL GERAL".toList, (s : Int), "100.00%".toList)] := by
  simp only [formatar_tabela_analise]
  split_ifs with h1 h2 h3 h4
  · exact hs.ne' h1
  · exact absurd h2.1 (by simp)
  · exact absurd h2.1 (by simp)
  · exact absurd h4 (by simp)
  · simp [formatFixed2Pct_self s hs]

/-- Witness for C10: a confidential-only field result with count 3. -/
theorem claim_C10_witness :
    formatar_tabela_analise ⟨[], 3, 3⟩ 10 =
      some [("Sigiloso".toList, (3 : Int), "100.00%".toList),
            ("TOTAL GERAL".toList, (3 : Int), "100.00%".toList)] :=
  claim_C10 3 10 (by decide)
